import Mathlib

/-!
Shallow embedding of `provision/docker/bs/bs.go` (tsuru): the bs sidecar
configuration store, environment resolver, token provider, image resolver,
node deployer and cluster recreation orchestrator.

Go maps are modelled as association lists (`EnvMap`, `PoolEnvMap`) with
update-in-place insertion and filtering deletion; the effectful parts
(mongo collection, auth scheme, docker client, tsuru config lookups) are
modelled by explicit "world" records carrying the outcome of each external
call, and functions additionally return the trace of external effects they
perform.
-/

namespace Bs

/-- Env mirrors the Go struct `Env{Name, Value string}`. -/
structure Env where
  name : String
  value : String
deriving DecidableEq, Repr

/-- PoolEnvs mirrors `PoolEnvs{Name string; Envs []Env}`. -/
structure PoolEnvs where
  name : String
  envs : List Env
deriving DecidableEq, Repr

/-- Config mirrors the stored `Config` document (`_id`, image, token, envs, pools). -/
structure Config where
  id : String
  image : String
  token : String
  envs : List Env
  pools : List PoolEnvs
deriving DecidableEq, Repr

/-- The zero value of `Config`, as produced by `&Config{}` in Go. -/
def emptyConfig : Config := ⟨"", "", "", [], []⟩

/-- EnvMap models Go's `map[string]string` as an association list. -/
abbrev EnvMap := List (String × String)

/-- PoolEnvMap models Go's `map[string]EnvMap` as an association list. -/
abbrev PoolEnvMap := List (String × EnvMap)

/-- Lookup of a key in an `EnvMap` (Go `m[k]`, `none` for absent). -/
def lookupEnv (m : EnvMap) (k : String) : Option String :=
  (List.find? (fun p => p.1 = k) m).map (fun p => p.2)

/-- Go `m[k] = v`: update in place when the key is present, append otherwise. -/
def insertEnv (m : EnvMap) (k v : String) : EnvMap :=
  if List.any m (fun p => p.1 = k) then
    List.map (fun p => if p.1 = k then (k, v) else p) m
  else
    m ++ [(k, v)]

/-- Go `delete(m, k)`. -/
def eraseEnv (m : EnvMap) (k : String) : EnvMap :=
  List.filter (fun p => ¬ p.1 = k) m

/-- Lookup of a pool's map in a `PoolEnvMap` (Go `pm[pool]`, `none` for nil). -/
def lookupPool (pm : PoolEnvMap) (k : String) : Option EnvMap :=
  (List.find? (fun p => p.1 = k) pm).map (fun p => p.2)

/-- Go `pm[pool] = m`. -/
def insertPool (pm : PoolEnvMap) (k : String) (m : EnvMap) : PoolEnvMap :=
  if List.any pm (fun p => p.1 = k) then
    List.map (fun p => if p.1 = k then (k, m) else p) pm
  else
    pm ++ [(k, m)]

/-- The forbidden-key set of `UpdateEnvMaps` (`forbiddenList` in the source). -/
def isForbidden (n : String) : Bool :=
  n = "DOCKER_ENDPOINT" || n = "TSURU_ENDPOINT" ||
  n = "SYSLOG_LISTEN_ADDRESS" || n = "TSURU_TOKEN"

/-- One loop iteration of `UpdateEnvMaps` once the forbidden check passed:
empty value deletes the key, non-empty value upserts it. -/
def applyEnv (m : EnvMap) (e : Env) : EnvMap :=
  if e.value = "" then eraseEnv m e.name else insertEnv m e.name e.value

/-- The checked env loop of `UpdateEnvMaps`: stop with the error message at
the first forbidden name, otherwise apply every entry in order. The map
returned alongside an error is the partially mutated one. -/
def applyEnvList : List Env → EnvMap → Option String × EnvMap
  | [], m => (none, m)
  | e :: rest, m =>
    if isForbidden e.name then
      (some ("cannot set " ++ e.name ++ " variable"), m)
    else
      applyEnvList rest (applyEnv m e)

/-- Unchecked application of a list of env entries (used to state what the
processed prefix of a patch did to a map). -/
def applyAllEnvs (l : List Env) (m : EnvMap) : EnvMap :=
  List.foldl applyEnv m l

/-- The pool loop of `UpdateEnvMaps`: each pool's map is created (empty) when
absent, then that pool's entries are applied by the checked env loop; a
partially mutated pool map is stored back even on error. -/
def applyPools : List PoolEnvs → PoolEnvMap → Option String × PoolEnvMap
  | [], pm => (none, pm)
  | p :: rest, pm =>
    let base := (lookupPool pm p.name).getD []
    match applyEnvList p.envs base with
    | (some e, m) => (some e, insertPool pm p.name m)
    | (none, m) => applyPools rest (insertPool pm p.name m)

/-- Unchecked application of a list of pool patches (spec-side mirror of
`applyPools` on a forbidden-free prefix). -/
def applyAllPools (l : List PoolEnvs) (pm : PoolEnvMap) : PoolEnvMap :=
  List.foldl
    (fun pm p => insertPool pm p.name (applyAllEnvs p.envs ((lookupPool pm p.name).getD []))) pm l

/-- Embedding of `Config.UpdateEnvMaps`: the first component is the error
(`none` on success), the second and third are the global and pool maps after
the call (Go mutates them in place, so they are returned even on error). -/
def UpdateEnvMaps (conf : Config) (envMap : EnvMap) (poolEnvMap : PoolEnvMap) :
    Option String × EnvMap × PoolEnvMap :=
  match applyEnvList conf.envs envMap with
  | (some e, m) => (some e, m, poolEnvMap)
  | (none, m) =>
    match applyPools conf.pools poolEnvMap with
    | (err, pm) => (err, m, pm)

/-- The last patch value a list of entries assigns to key `k`, if any. -/
def lastVal (l : List Env) (k : String) : Option String :=
  List.foldl (fun acc e => if e.name = k then some e.value else acc) none l

/-- The effect of a patch's final assignment to a key on a map lookup:
no assignment keeps the previous binding, an empty-valued assignment
removes it, a non-empty one replaces it. -/
def applyLast (last cur : Option String) : Option String :=
  match last with
  | none => cur
  | some v => if v = "" then none else some v

/-- All entries a list of pool patches carries for pool `q`, in processing
order. -/
def poolEntriesOf (pools : List PoolEnvs) (q : String) : List Env :=
  List.foldr (fun p acc => p.envs ++ acc) []
    (List.filter (fun p => p.name = q) pools)

/-- All entries a patch carries for pool `q`, in processing order. -/
def poolEntries (conf : Config) (q : String) : List Env :=
  poolEntriesOf conf.pools q

/-- Whether no global or pool entry of a configuration uses a forbidden name. -/
def confForbiddenFree (conf : Config) : Bool :=
  List.all conf.envs (fun e => ¬ isForbidden e.name) &&
  List.all conf.pools (fun p => List.all p.envs (fun e => ¬ isForbidden e.name))

/-- Whether no global or pool entry of a configuration has a name containing
`=` (such a name would make the emitted `NAME=VALUE` string parse under a
different name). -/
def confEqFree (conf : Config) : Bool :=
  List.all conf.envs (fun e => ¬ List.any e.name.data (fun c => c = '=')) &&
  List.all conf.pools (fun p =>
    List.all p.envs (fun e => ¬ List.any e.name.data (fun c => c = '=')))

/-! ### Token provider (`Config.getToken`, lines 146-177) -/

/-- External effects performed by `getToken`. -/
inductive TEvent where
  | login (tok : String)
  | logout (tok : String)
  | upsert (tok : String)
  | find
deriving DecidableEq, Repr

/-- Outcomes of the external calls `getToken` makes: collection acquisition,
`AppLogin`, a possible injected (non-duplicate) storage fault on the
conditional upsert, the currently stored singleton record, and a possible
fault on the re-loading `FindId`. Whether the conditional upsert matches (and
whether a duplicate-key error arises) is computed from `stored`, mirroring
mongo's semantics for an upsert whose filter requires an empty or missing
token on the fixed `_id`. -/
structure TokenWorld where
  collectionErr : Option String
  loginResult : Except String String
  upsertFault : Option String
  stored : Option Config
  findErr : Option String

/-- Embedding of `Config.getToken`. Returns the result, the receiver after
the call (Go mutates `conf`; the duplicate-key path overwrites it wholesale
via `FindId(...).One(conf)`), the stored record after the call, and the trace
of external effects. A missing stored record makes the conditional upsert
insert `{_id: "bs", token: tok}`; a stored record with an empty token is
updated in place; a stored record with a non-empty token does not match the
filter, so the attempted insert collides on `_id` and yields a duplicate-key
error, upon which the fresh token is logged out and the record re-loaded. -/
def getToken (conf : Config) (w : TokenWorld) :
    Except String String × Config × Option Config × List TEvent :=
  if conf.token ≠ "" then
    (Except.ok conf.token, conf, w.stored, [])
  else
    match w.collectionErr with
    | some e => (Except.error e, conf, w.stored, [])
    | none =>
      match w.loginResult with
      | Except.error e => (Except.error e, conf, w.stored, [])
      | Except.ok token =>
        match w.upsertFault with
        | some e =>
          (Except.error e, conf, w.stored,
           [TEvent.login token, TEvent.upsert token, TEvent.logout token])
        | none =>
          match w.stored with
          | none =>
            (Except.ok token, { conf with token := token },
             some ⟨"bs", "", token, [], []⟩,
             [TEvent.login token, TEvent.upsert token])
          | some r =>
            if r.token = "" then
              (Except.ok token, { conf with token := token },
               some { r with token := token },
               [TEvent.login token, TEvent.upsert token])
            else
              match w.findErr with
              | some e =>
                (Except.error e, conf, w.stored,
                 [TEvent.login token, TEvent.upsert token, TEvent.logout token, TEvent.find])
              | none =>
                (Except.ok r.token, r, w.stored,
                 [TEvent.login token, TEvent.upsert token, TEvent.logout token, TEvent.find])

/-! ### Environment resolver (`Config.EnvListForEndpoint`, lines 110-144) -/

/-- Go `strings.HasPrefix`. -/
def leadsWith (s p : String) : Bool :=
  List.take p.data.length s.data = p.data

/-- The platform endpoint computation of `EnvListForEndpoint` lines 111-115:
default the scheme to `http://`, then normalize to a single trailing slash
(`strings.TrimRight(s, "/") + "/"`). -/
def normalizeHost (host : String) : String :=
  let t := if leadsWith host "http://" || leadsWith host "https://" then host
           else "http://" ++ host
  String.mk (List.reverse (List.dropWhile (fun c => c = '/') (List.reverse t.data))) ++ "/"

/-- Embedding of `SysLogPort` (lines 194-200): the configured
`docker:bs:syslog-port` (0 when unset) or the default 1514. -/
def SysLogPort (syslogCfg : Nat) : Nat :=
  if syslogCfg = 0 then 1514 else syslogCfg

/-- Embedding of `Config.EnvListForEndpoint`. `hostCfg`, `socketCfg` and
`syslogCfg` are the `config.GetString("host")`, `config.GetString
("docker:bs:socket")` and `config.GetInt("docker:bs:syslog-port")` lookups
(zero values when unset; the source ignores the lookup errors), and `tw`
drives the embedded `getToken` call. The duplicate-key path of `getToken`
replaces the receiver, so the merge loop uses the configuration `getToken`
returns. Go's map iteration is modelled by the association lists' order. -/
def EnvListForEndpoint (conf : Config) (dockerEndpoint poolName : String)
    (hostCfg socketCfg : String) (syslogCfg : Nat) (tw : TokenWorld) :
    Except String (List String) :=
  let tsuruEndpoint := normalizeHost hostCfg
  let endpoint := if socketCfg ≠ "" then "unix:///var/run/docker.sock" else dockerEndpoint
  match getToken conf tw with
  | (Except.error e, _, _, _) => Except.error e
  | (Except.ok token, conf2, _, _) =>
    let envList := ["DOCKER_ENDPOINT=" ++ endpoint,
      "TSURU_ENDPOINT=" ++ tsuruEndpoint,
      "TSURU_TOKEN=" ++ token,
      "SYSLOG_LISTEN_ADDRESS=udp://0.0.0.0:" ++ Nat.repr (SysLogPort syslogCfg)]
    match UpdateEnvMaps conf2 [] [] with
    | (some e, _, _) => Except.error e
    | (none, em, pm) =>
      Except.ok (envList ++ List.map (fun p => p.1 ++ "=" ++ p.2) em
        ++ List.map (fun p => p.1 ++ "=" ++ p.2) ((lookupPool pm poolName).getD []))

/-- The name an emitted `NAME=VALUE` entry carries: everything before the
first `=`, which is how the consuming environment parses it. -/
def entryName (s : String) : String :=
  String.mk (List.takeWhile (fun c => ¬ c = '=') s.data)

/-- The four reserved keys, in the seeding order of `EnvListForEndpoint`. -/
def reservedKeys : List String :=
  ["DOCKER_ENDPOINT", "TSURU_ENDPOINT", "TSURU_TOKEN", "SYSLOG_LISTEN_ADDRESS"]

/-- How many entries of an emitted environment list carry the name `k`. -/
def countKey (l : List String) (k : String) : Nat :=
  List.length (List.filter (fun s => entryName s = k) l)

/-! ### Image resolver (`getImage`, `pullBsImage`, `shouldPinBsImage`) -/

/-- Embedding of `Config.getImage` (lines 99-108) for a non-nil receiver
(the only way `CreateContainer` calls it): the stored image, else the
configured `docker:bs:image`, else `tsuru/bs`. -/
def getImage (conf : Config) (bsImageCfg : String) : String :=
  if conf.image ≠ "" then conf.image
  else if bsImageCfg = "" then "tsuru/bs" else bsImageCfg

/-- Full split of a character list at every occurrence of `c`
(Go `strings.Split` for a one-character separator). -/
def splitChar (c : Char) : List Char → List (List Char)
  | [] => [[]]
  | a :: rest =>
    match splitChar c rest with
    | [] => [[]]
    | h :: t => if a = c then [] :: h :: t else (a :: h) :: t

/-- Rejoin split pieces with the separator character (inverse of
`splitChar`). -/
def joinChar (c : Char) : List (List Char) → List Char
  | [] => []
  | [x] => x
  | x :: y :: rest => x ++ c :: joinChar c (y :: rest)

/-- Go `strings.SplitN(s, sep, n)` for a one-character separator and `n ≥ 1`:
at most `n` pieces, the last piece being the unsplit remainder. -/
def splitNChar (c : Char) (n : Nat) (s : List Char) : List (List Char) :=
  let parts := splitChar c s
  if parts.length ≤ n then parts
  else List.take (n - 1) parts ++ [joinChar c (List.drop (n - 1) parts)]

/-- Embedding of `shouldPinBsImage` (lines 323-327): split the reference into
at most 3 slash-separated pieces and pin exactly when the last piece splits
into fewer than 2 colon-separated pieces (i.e. contains no colon). -/
def shouldPinBsImage (image : String) : Bool :=
  let parts := splitNChar '/' 3 image.data
  let lastPart := List.getLastD parts []
  decide ((splitNChar ':' 2 lastPart).length < 2)

/-- The trailing path segment of an image reference: the piece after the
last `/` (the whole reference when it has no slash). Spec-side notion used
by the pin-heuristic claim. -/
def lastSegment (image : String) : List Char :=
  List.getLastD (splitChar '/' image.data) []

/-- The claimed pin rule: pin exactly when the trailing path segment (after
the last `/`) contains no colon. -/
def specPinLastSegment (image : String) : Bool :=
  ! List.any (lastSegment image) (fun c => c = ':')

/-- The portion of a string after its first occurrence of `c` (`none` when
`c` does not occur). -/
def afterFirstChar (c : Char) : List Char → Option (List Char)
  | [] => none
  | a :: rest => if a = c then some rest else afterFirstChar c rest

/-- Drop up to `n` leading `c`-terminated pieces of a string: the direct
reading of what `SplitN (n+1)` leaves in its final piece. -/
def tailAfterChars (c : Char) : Nat → List Char → List Char
  | 0, s => s
  | k + 1, s =>
    match afterFirstChar c s with
    | none => s
    | some rest => tailAfterChars c k rest

/-- A line matched by `digestRegexp` (`(?m)^Digest: (.*)$`): the line starts
with `Digest: ` and the captured group is the remainder of the line. -/
def digestOfLine (l : List Char) : Option (List Char) :=
  if List.take 8 l = "Digest: ".data then some (List.drop 8 l) else none

/-- The submatch produced by `digestRegexp.FindAllStringSubmatch(out, 1)`:
the capture of the first matching line, scanning left to right. -/
def firstDigest (out : String) : Option (List Char) :=
  List.head? (List.filterMap digestOfLine (splitChar '\n' out.data))

/-- Spec-side notion for the digest claim: the capture of the last matching
line of the output. -/
def lastDigest (out : String) : Option (List Char) :=
  List.getLast? (List.filterMap digestOfLine (splitChar '\n' out.data))

/-- The image reference `pullBsImage` saves (lines 314-320): when the pin
heuristic applies and the pull output contains a digest line, append
`@<value>`; otherwise keep the reference unchanged. -/
def pinImage (image : String) (output : String) : String :=
  if shouldPinBsImage image then
    match firstDigest output with
    | some v => image ++ "@" ++ String.mk v
    | none => image
  else image

/-- Outcomes of the external calls `pullBsImage` makes: docker client
creation, the pull itself (whose success carries the captured output
stream), and the `SaveImage` collection write. -/
structure PullWorld where
  clientErr : Option String
  pullResult : Except String String
  saveErr : Option String

/-- Embedding of `pullBsImage` (lines 303-321). The first component is the
function's result; the second records the reference handed to `SaveImage`
(`none` when the flow aborted before saving). -/
def pullBsImage (image : String) (w : PullWorld) : Except String String × Option String :=
  match w.clientErr with
  | some e => (Except.error e, none)
  | none =>
    match w.pullResult with
    | Except.error e => (Except.error e, none)
    | Except.ok output =>
      let saved := pinImage image output
      match w.saveErr with
      | some e => (Except.error e, some saved)
      | none => (Except.ok saved, some saved)

/-! ### Config store writes (`SaveImage`, `SaveEnvs`, lines 202-221) -/

/-- The persisted singleton record (`none` when it does not exist yet). -/
abbrev Store := Option Config

/-- Embedding of `SaveImage`: `UpsertId(bsUniqueID, {$set: {image: digest}})`
updates only the image field of an existing record, or inserts a record
holding just the `_id` and the image. -/
def saveImageStore (s : Store) (digest : String) : Store :=
  match s with
  | some r => some { r with image := digest }
  | none => some ⟨"bs", digest, "", [], []⟩

/-- Embedding of `bsConfigFromEnvMaps` (lines 179-192). -/
def bsConfigFromEnvMaps (envMap : EnvMap) (poolEnvMap : PoolEnvMap) : Config :=
  ⟨"", "", "",
   List.map (fun p => Env.mk p.1 p.2) envMap,
   List.map (fun p => PoolEnvs.mk p.1 (List.map (fun q => Env.mk q.1 q.2) p.2)) poolEnvMap⟩

/-- Embedding of `SaveEnvs`: `UpsertId(bsUniqueID, {$set: {envs: ..,
pools: ..}})` updates only the envs and pools fields of an existing record,
or inserts a record holding just the `_id` and those fields. -/
def saveEnvsStore (s : Store) (envMap : EnvMap) (poolEnvMap : PoolEnvMap) : Store :=
  let finalConf := bsConfigFromEnvMaps envMap poolEnvMap
  match s with
  | some r => some { r with envs := finalConf.envs, pools := finalConf.pools }
  | none => some ⟨"bs", "", "", finalConf.envs, finalConf.pools⟩

/-! ### Node agent deployer (`CreateContainer`, lines 245-301) -/

/-- Result type of `CreateContainer`: the sentinel
`docker.ErrContainerAlreadyExists` is kept distinguishable from every other
error because line 290 compares against it. -/
inductive BsErr where
  | alreadyExists
  | other (msg : String)
deriving DecidableEq, Repr

/-- Message of a `BsErr` (the sentinel's text in go-dockerclient). -/
def errMsg : BsErr → String
  | BsErr.alreadyExists => "container already exists"
  | BsErr.other m => m

/-- Outcome of one `client.CreateContainer` call. -/
inductive CreateOutcome where
  | created (id : String)
  | alreadyExists
  | fail (msg : String)
deriving DecidableEq, Repr

/-- Outcome of `LoadConfig` (lines 223-235) as seen by `CreateContainer`. -/
inductive LoadOutcome where
  | found (c : Config)
  | notFound
  | fail (msg : String)
deriving DecidableEq, Repr

/-- Lines 256-262: a missing record is tolerated as `&Config{}`; any other
load error is fatal. -/
def loadedConf : LoadOutcome → Except String Config
  | LoadOutcome.found c => Except.ok c
  | LoadOutcome.notFound => Except.ok emptyConfig
  | LoadOutcome.fail e => Except.error e

/-- Container lifecycle effects performed by `CreateContainer`. -/
inductive CEvent where
  | createAttempt
  | removeContainer
  | startContainer (id : String)
deriving DecidableEq, Repr

/-- Outcomes of all external calls one `CreateContainer` run can make. -/
structure DeployWorld where
  newClientErr : Option String
  load : LoadOutcome
  bsImageCfg : String
  pull : PullWorld
  hostCfg : String
  socketCfg : String
  syslogCfg : Nat
  tokenW : TokenWorld
  createFirst : CreateOutcome
  removeErr : Option String
  createSecond : CreateOutcome
  startErr : Option String

/-- Lines 289-296: the creation attempt, the relaunch-only forced removal of
the fixed-name container, and the single retry. On success the id of the
container to start is returned. -/
def afterCreate (relaunch : Bool) (w : DeployWorld) : Except BsErr String × List CEvent :=
  match w.createFirst with
  | CreateOutcome.created i => (Except.ok i, [CEvent.createAttempt])
  | CreateOutcome.fail m => (Except.error (BsErr.other m), [CEvent.createAttempt])
  | CreateOutcome.alreadyExists =>
    if relaunch then
      match w.removeErr with
      | some e =>
        (Except.error (BsErr.other e), [CEvent.createAttempt, CEvent.removeContainer])
      | none =>
        match w.createSecond with
        | CreateOutcome.created i =>
          (Except.ok i, [CEvent.createAttempt, CEvent.removeContainer, CEvent.createAttempt])
        | CreateOutcome.alreadyExists =>
          (Except.error BsErr.alreadyExists,
           [CEvent.createAttempt, CEvent.removeContainer, CEvent.createAttempt])
        | CreateOutcome.fail m =>
          (Except.error (BsErr.other m),
           [CEvent.createAttempt, CEvent.removeContainer, CEvent.createAttempt])
    else
      (Except.error BsErr.alreadyExists, [CEvent.createAttempt])

/-- Embedding of `CreateContainer` (lines 251-301): client creation, config
load, image resolution and pull, environment resolution, then
create/remove/retry/start. The container-spec plumbing (host config, binds)
carries no claim-relevant data and is not tracked beyond the events. -/
def CreateContainer (dockerEndpoint poolName : String) (relaunch : Bool) (w : DeployWorld) :
    Except BsErr Unit × List CEvent :=
  match w.newClientErr with
  | some e => (Except.error (BsErr.other e), [])
  | none =>
    match loadedConf w.load with
    | Except.error e => (Except.error (BsErr.other e), [])
    | Except.ok bsConf =>
      let bsImage := getImage bsConf w.bsImageCfg
      match (pullBsImage bsImage w.pull).1 with
      | Except.error e => (Except.error (BsErr.other e), [])
      | Except.ok _ =>
        match EnvListForEndpoint bsConf dockerEndpoint poolName
            w.hostCfg w.socketCfg w.syslogCfg w.tokenW with
        | Except.error e => (Except.error (BsErr.other e), [])
        | Except.ok _ =>
          match afterCreate relaunch w with
          | (Except.error e, evs) => (Except.error e, evs)
          | (Except.ok i, evs) =>
            match w.startErr with
            | some e => (Except.error (BsErr.other e), evs ++ [CEvent.startContainer i])
            | none => (Except.ok (), evs ++ [CEvent.startContainer i])

/-! ### Cluster recreation orchestrator (`RecreateContainers`, lines 331-359) -/

/-- A cluster node as `RecreateContainers` sees it: address plus the `pool`
metadata entry. -/
structure RNode where
  address : String
  pool : String

/-- One per-node task of `RecreateContainers` (lines 342-354): run the
deployer with `relaunch = true` and wrap any failure in the logged message. -/
def recreateNode (n : RNode) (w : DeployWorld) : Option String :=
  match (CreateContainer n.address n.pool true w).1 with
  | Except.ok _ => none
  | Except.error e =>
    some ("[bs containers] failed to create container in " ++ n.address ++ " ["
      ++ n.pool ++ "]: " ++ errMsg e)

/-- Embedding of `RecreateContainers` after a successful node enumeration
(each node paired with the world its task runs against). Every node's task
executes; the second component is the per-node outcome trace, the first the
aggregate result: the first collected error, or `none` when the closed error
channel is empty (Go's `return <-errChan`). -/
def RecreateContainers (nodes : List (RNode × DeployWorld)) :
    Option String × List (Option String) :=
  let results := List.map (fun p => recreateNode p.1 p.2) nodes
  (List.head? (List.filterMap id results), results)

/-! ## Association-list map lemmas -/


theorem find?_mapReplace_self {α : Type} (m : List (String × α)) (k : String) (v : α)
    (h : List.any m (fun p => p.1 = k) = true) :
    List.find? (fun p => p.1 = k)
      (List.map (fun p => if p.1 = k then (k, v) else p) m) = some (k, v) := by
  induction m with
  | nil => simp at h
  | cons a m ih =>
    by_cases ha : a.1 = k
    · simp [List.find?_cons, ha]
    · have h' : List.any m (fun p => p.1 = k) = true := by
        simp only [List.any_cons, Bool.or_eq_true, decide_eq_true_eq] at h
        rcases h with h | h
        · exact absurd h ha
        · exact h
      simp only [List.map_cons, if_neg ha]
      rw [List.find?_cons_of_neg _ (by simp [ha])]
      exact ih h'

theorem find?_mapReplace_ne {α : Type} (m : List (String × α)) (k q : String) (v : α)
    (h : ¬ q = k) :
    List.find? (fun p => p.1 = q)
      (List.map (fun p => if p.1 = k then (k, v) else p) m) =
    List.find? (fun p => p.1 = q) m := by
  induction m with
  | nil => rfl
  | cons a m ih =>
    by_cases ha : a.1 = k
    · simp only [List.map_cons, if_pos ha]
      rw [List.find?_cons_of_neg _ (by simp; intro e; exact h e.symm),
        List.find?_cons_of_neg _ (by simp; intro e; exact h (e.symm.trans ha))]
      exact ih
    · simp only [List.map_cons, if_neg ha]
      by_cases haq : a.1 = q
      · rw [List.find?_cons_of_pos _ (by simp [haq]),
          List.find?_cons_of_pos _ (by simp [haq])]
      · rw [List.find?_cons_of_neg _ (by simp [haq]),
          List.find?_cons_of_neg _ (by simp [haq])]
        exact ih

theorem lookupEnv_insertEnv_self (m : EnvMap) (k v : String) :
    lookupEnv (insertEnv m k v) k = some v := by
  unfold insertEnv lookupEnv
  by_cases h : List.any m (fun p => p.1 = k) = true
  · rw [if_pos h, find?_mapReplace_self m k v h]
    rfl
  · rw [if_neg h, List.find?_append]
    have h0 : List.find? (fun p => (p.1 = k : Bool)) m = none := by
      rw [List.find?_eq_none]
      intro x hx hk
      apply h
      rw [List.any_eq_true]
      refine ⟨x, hx, hk⟩
    rw [h0]
    simp [List.find?_cons]

theorem lookupEnv_insertEnv_ne (m : EnvMap) (k q v : String) (h : ¬ q = k) :
    lookupEnv (insertEnv m k v) q = lookupEnv m q := by
  unfold insertEnv lookupEnv
  by_cases hm : List.any m (fun p => p.1 = k) = true
  · rw [if_pos hm, find?_mapReplace_ne m k q v h]
  · rw [if_neg hm, List.find?_append]
    have h1 : List.find? (fun p => (p.1 = q : Bool)) [(k, v)] = none := by
      simp
      intro hq
      exact h hq.symm
    rw [h1]
    cases List.find? (fun p => (p.1 = q : Bool)) m <;> rfl

theorem lookupEnv_eraseEnv_self (m : EnvMap) (k : String) :
    lookupEnv (eraseEnv m k) k = none := by
  unfold eraseEnv lookupEnv
  have h0 : List.find? (fun p => (p.1 = k : Bool))
      (List.filter (fun p => (¬ p.1 = k : Bool)) m) = none := by
    rw [List.find?_eq_none]
    intro x hx
    have hmem := List.of_mem_filter hx
    simp at hmem ⊢
    exact hmem
  rw [h0]
  rfl

theorem lookupEnv_eraseEnv_ne (m : EnvMap) (k q : String) (h : ¬ q = k) :
    lookupEnv (eraseEnv m k) q = lookupEnv m q := by
  unfold eraseEnv lookupEnv
  induction m with
  | nil => rfl
  | cons a m ih =>
    by_cases ha : a.1 = k
    · have hq : ¬ a.1 = q := fun e => h (e.symm.trans ha)
      simp only [List.filter_cons]
      rw [if_neg (by simp [ha])]
      rw [ih, List.find?_cons_of_neg _ (by simp [hq])]
    · simp only [List.filter_cons]
      rw [if_pos (by simp [ha])]
      by_cases haq : a.1 = q
      · rw [List.find?_cons_of_pos _ (by simp [haq]),
          List.find?_cons_of_pos _ (by simp [haq])]
      · rw [List.find?_cons_of_neg _ (by simp [haq]),
          List.find?_cons_of_neg _ (by simp [haq])]
        exact ih

theorem mem_insertEnv {m : EnvMap} {k v : String} {x : String × String}
    (hx : x ∈ insertEnv m k v) : x.1 = k ∨ x ∈ m := by
  unfold insertEnv at hx
  by_cases hm : List.any m (fun p => p.1 = k) = true
  · rw [if_pos hm] at hx
    rcases List.mem_map.mp hx with ⟨a, ha, hax⟩
    by_cases hak : a.1 = k
    · left; rw [if_pos hak] at hax; rw [← hax]
    · right; rw [if_neg hak] at hax; rw [← hax]; exact ha
  · rw [if_neg hm] at hx
    rcases List.mem_append.mp hx with hx | hx
    · right; exact hx
    · left
      have hx' : x = (k, v) := by simpa using hx
      rw [hx']

theorem mem_eraseEnv {m : EnvMap} {k : String} {x : String × String}
    (hx : x ∈ eraseEnv m k) : x ∈ m :=
  List.mem_of_mem_filter hx

theorem lookupPool_insertPool_self (pm : PoolEnvMap) (k : String) (m : EnvMap) :
    lookupPool (insertPool pm k m) k = some m := by
  unfold insertPool lookupPool
  by_cases h : List.any pm (fun p => p.1 = k) = true
  · rw [if_pos h, find?_mapReplace_self pm k m h]
    rfl
  · rw [if_neg h, List.find?_append]
    have h0 : List.find? (fun p => (p.1 = k : Bool)) pm = none := by
      rw [List.find?_eq_none]
      intro x hx hk
      apply h
      rw [List.any_eq_true]
      refine ⟨x, hx, hk⟩
    rw [h0]
    simp [List.find?_cons]

theorem lookupPool_insertPool_ne (pm : PoolEnvMap) (k q : String) (m : EnvMap)
    (h : ¬ q = k) : lookupPool (insertPool pm k m) q = lookupPool pm q := by
  unfold insertPool lookupPool
  by_cases hm : List.any pm (fun p => p.1 = k) = true
  · rw [if_pos hm, find?_mapReplace_ne pm k q m h]
  · rw [if_neg hm, List.find?_append]
    have h1 : List.find? (fun p => (p.1 = q : Bool)) [(k, m)] = none := by
      simp
      intro hq
      exact h hq.symm
    rw [h1]
    cases List.find? (fun p => (p.1 = q : Bool)) pm <;> rfl

theorem mem_insertPool {pm : PoolEnvMap} {k : String} {m : EnvMap}
    {x : String × EnvMap} (hx : x ∈ insertPool pm k m) :
    x = (k, m) ∨ x ∈ pm := by
  unfold insertPool at hx
  by_cases hm : List.any pm (fun p => p.1 = k) = true
  · rw [if_pos hm] at hx
    rcases List.mem_map.mp hx with ⟨a, ha, hax⟩
    by_cases hak : a.1 = k
    · left; rw [← hax, if_pos hak]
    · right; rw [if_neg hak] at hax; rw [← hax]; exact ha
  · rw [if_neg hm] at hx
    rcases List.mem_append.mp hx with hx | hx
    · right; exact hx
    · left; simpa using hx

theorem lookupPool_mem {pm : PoolEnvMap} {q : String} {mq : EnvMap}
    (h : lookupPool pm q = some mq) : ∃ y ∈ pm, y.2 = mq := by
  unfold lookupPool at h
  cases hf : List.find? (fun p => (p.1 = q : Bool)) pm with
  | none => rw [hf] at h; simp at h
  | some y =>
    rw [hf] at h
    have h2 : some y.2 = some mq := h
    exact ⟨y, List.mem_of_find?_eq_some hf, Option.some.inj h2⟩

/-! ## Patch-application lemmas -/

theorem applyAllEnvs_append (l1 l2 : List Env) (m : EnvMap) :
    applyAllEnvs (l1 ++ l2) m = applyAllEnvs l2 (applyAllEnvs l1 m) :=
  List.foldl_append applyEnv m l1 l2

theorem applyEnvList_clean (l : List Env) (m : EnvMap)
    (h : ∀ e ∈ l, isForbidden e.name = false) :
    applyEnvList l m = (none, applyAllEnvs l m) := by
  induction l generalizing m with
  | nil => rfl
  | cons e l ih =>
    have he := h e (by simp)
    simp only [applyEnvList]
    rw [if_neg (by simp [he])]
    rw [ih _ (fun x hx => h x (by simp [hx]))]
    rfl

theorem applyEnvList_offend (pre : List Env) (off : Env) (post : List Env) (m : EnvMap)
    (hclean : ∀ e ∈ pre, isForbidden e.name = false)
    (hoff : isForbidden off.name = true) :
    applyEnvList (pre ++ off :: post) m =
      (some ("cannot set " ++ off.name ++ " variable"), applyAllEnvs pre m) := by
  induction pre generalizing m with
  | nil =>
    simp only [List.nil_append, applyEnvList]
    rw [if_pos hoff]
    rfl
  | cons e pre ih =>
    have he := hclean e (by simp)
    simp only [List.cons_append, applyEnvList]
    rw [if_neg (by simp [he])]
    exact ih (applyEnv m e) (fun x hx => hclean x (List.mem_cons_of_mem _ hx))

theorem applyEnvList_none_snd (l : List Env) (m : EnvMap)
    (h : (applyEnvList l m).1 = none) :
    (applyEnvList l m).2 = applyAllEnvs l m := by
  induction l generalizing m with
  | nil => rfl
  | cons e l ih =>
    by_cases hf : isForbidden e.name = true
    · exfalso
      simp only [applyEnvList, if_pos hf] at h
      exact Option.noConfusion h
    · simp only [applyEnvList, if_neg hf] at h ⊢
      exact ih _ h

theorem applyEnvList_none_clean (l : List Env) (m : EnvMap)
    (h : (applyEnvList l m).1 = none) :
    ∀ e ∈ l, isForbidden e.name = false := by
  induction l generalizing m with
  | nil =>
    intro e he
    exact absurd he (List.not_mem_nil e)
  | cons e l ih =>
    by_cases hf : isForbidden e.name = true
    · exfalso
      simp only [applyEnvList, if_pos hf] at h
      exact Option.noConfusion h
    · simp only [applyEnvList, if_neg hf] at h
      intro x hx
      rcases List.mem_cons.mp hx with rfl | hx
      · exact Bool.eq_false_iff.mpr hf
      · exact ih _ h x hx

theorem lookupEnv_applyEnv (m : EnvMap) (e : Env) (k : String) :
    lookupEnv (applyEnv m e) k =
      if e.name = k then (if e.value = "" then none else some e.value)
      else lookupEnv m k := by
  unfold applyEnv
  by_cases hv : e.value = ""
  · rw [if_pos hv]
    by_cases hk : e.name = k
    · rw [if_pos hk, if_pos hv, hk, lookupEnv_eraseEnv_self]
    · rw [if_neg hk, lookupEnv_eraseEnv_ne _ _ _ (fun h => hk h.symm)]
  · rw [if_neg hv]
    by_cases hk : e.name = k
    · rw [if_pos hk, if_neg hv, hk, lookupEnv_insertEnv_self]
    · rw [if_neg hk, lookupEnv_insertEnv_ne _ _ _ _ (fun h => hk h.symm)]

theorem lastVal_fold (l : List Env) (k : String) (acc : Option String) :
    List.foldl (fun acc e => if e.name = k then some e.value else acc) acc l =
    Option.or (lastVal l k) acc := by
  induction l generalizing acc with
  | nil => cases acc <;> rfl
  | cons e l ih =>
    rw [List.foldl_cons, ih]
    have h2 : lastVal (e :: l) k =
        List.foldl (fun acc e => if e.name = k then some e.value else acc)
          (if e.name = k then some e.value else none) l := rfl
    rw [h2, ih]
    cases hl : lastVal l k with
    | some v => rfl
    | none =>
      by_cases hk : e.name = k <;> simp [hk, Option.or]

theorem lookupEnv_applyAllEnvs (l : List Env) (m : EnvMap) (k : String) :
    lookupEnv (applyAllEnvs l m) k = applyLast (lastVal l k) (lookupEnv m k) := by
  induction l generalizing m with
  | nil => rfl
  | cons e l ih =>
    have h1 : applyAllEnvs (e :: l) m = applyAllEnvs l (applyEnv m e) := rfl
    rw [h1, ih, lookupEnv_applyEnv]
    have h2 : lastVal (e :: l) k =
        Option.or (lastVal l k) (if e.name = k then some e.value else none) := by
      have h3 : lastVal (e :: l) k =
          List.foldl (fun acc e => if e.name = k then some e.value else acc)
            (if e.name = k then some e.value else none) l := rfl
      rw [h3, lastVal_fold]
    rw [h2]
    cases hl : lastVal l k with
    | some v => rfl
    | none =>
      by_cases hk : e.name = k <;> simp [hk, Option.or, applyLast]

theorem applyAllEnvs_keys (p : String → Prop) (l : List Env) (m : EnvMap)
    (hl : ∀ e ∈ l, p e.name) (hm : ∀ x ∈ m, p x.1) :
    ∀ x ∈ applyAllEnvs l m, p x.1 := by
  induction l generalizing m with
  | nil => exact hm
  | cons e l ih =>
    intro x hx
    have hx2 : x ∈ applyAllEnvs l (applyEnv m e) := hx
    refine ih (applyEnv m e) (fun y hy => hl y (List.mem_cons_of_mem _ hy))
      (fun y hy => ?_) x hx2
    unfold applyEnv at hy
    by_cases hv : e.value = ""
    · rw [if_pos hv] at hy
      exact hm y (mem_eraseEnv hy)
    · rw [if_neg hv] at hy
      rcases mem_insertEnv hy with h | h
      · rw [h]
        exact hl e (by simp)
      · exact hm y h

theorem poolEntriesOf_cons_pos (p : PoolEnvs) (rest : List PoolEnvs) (q : String)
    (h : p.name = q) :
    poolEntriesOf (p :: rest) q = p.envs ++ poolEntriesOf rest q := by
  unfold poolEntriesOf
  rw [List.filter_cons, if_pos (by simp [h])]
  rfl

theorem poolEntriesOf_cons_neg (p : PoolEnvs) (rest : List PoolEnvs) (q : String)
    (h : ¬ p.name = q) :
    poolEntriesOf (p :: rest) q = poolEntriesOf rest q := by
  unfold poolEntriesOf
  rw [List.filter_cons, if_neg (by simp [h])]

theorem poolEntriesOf_eq_nil (rest : List PoolEnvs) (q : String)
    (h : List.any rest (fun p => p.name = q) = false) :
    poolEntriesOf rest q = [] := by
  unfold poolEntriesOf
  have h0 : List.filter (fun p => (p.name = q : Bool)) rest = [] := by
    rw [List.filter_eq_nil_iff]
    intro a ha
    simp only [List.any_eq_false] at h
    simpa using h a ha
  rw [h0]
  rfl

theorem applyPools_clean (pools : List PoolEnvs) (pm : PoolEnvMap)
    (h : ∀ p ∈ pools, ∀ e ∈ p.envs, isForbidden e.name = false) :
    applyPools pools pm = (none, applyAllPools pools pm) := by
  induction pools generalizing pm with
  | nil => rfl
  | cons p rest ih =>
    have hp := applyEnvList_clean p.envs ((lookupPool pm p.name).getD []) (h p (by simp))
    simp only [applyPools, hp]
    rw [ih _ (fun r hr => h r (by simp [hr]))]
    rfl

theorem applyPools_offend (ppre : List PoolEnvs) (p : PoolEnvs) (ppost : List PoolEnvs)
    (pm : PoolEnvMap) (pre : List Env) (off : Env) (post : List Env)
    (hpre : ∀ r ∈ ppre, ∀ e ∈ r.envs, isForbidden e.name = false)
    (hsplit : p.envs = pre ++ off :: post)
    (hclean : ∀ e ∈ pre, isForbidden e.name = false)
    (hoff : isForbidden off.name = true) :
    applyPools (ppre ++ p :: ppost) pm =
      (some ("cannot set " ++ off.name ++ " variable"),
       insertPool (applyAllPools ppre pm) p.name
         (applyAllEnvs pre ((lookupPool (applyAllPools ppre pm) p.name).getD []))) := by
  induction ppre generalizing pm with
  | nil =>
    simp only [List.nil_append, applyPools]
    rw [hsplit, applyEnvList_offend pre off post _ hclean hoff]
    rfl
  | cons r rest ih =>
    have hr := applyEnvList_clean r.envs ((lookupPool pm r.name).getD []) (hpre r (by simp))
    simp only [List.cons_append, applyPools, hr]
    exact ih _ (fun x hx => hpre x (List.mem_cons_of_mem _ hx))

theorem applyPools_none_lookup (pools : List PoolEnvs) (pm : PoolEnvMap)
    (h : (applyPools pools pm).1 = none) (q : String) :
    lookupPool (applyPools pools pm).2 q =
      if List.any pools (fun p => p.name = q) then
        some (applyAllEnvs (poolEntriesOf pools q) ((lookupPool pm q).getD []))
      else lookupPool pm q := by
  induction pools generalizing pm with
  | nil => simp [applyPools, poolEntriesOf]
  | cons p rest ih =>
    cases hel : applyEnvList p.envs ((lookupPool pm p.name).getD []) with
    | mk err m1 =>
      cases err with
      | some e =>
        exfalso
        simp only [applyPools, hel] at h
        exact Option.noConfusion h
      | none =>
        have hm1 : m1 = applyAllEnvs p.envs ((lookupPool pm p.name).getD []) := by
          have hs := applyEnvList_none_snd p.envs ((lookupPool pm p.name).getD [])
            (by rw [hel])
          rw [hel] at hs
          exact hs
        have hstep : applyPools (p :: rest) pm = applyPools rest (insertPool pm p.name m1) := by
          simp only [applyPools, hel]
        rw [hstep] at h ⊢
        rw [ih _ h]
        by_cases hq : p.name = q
        · subst hq
          rw [lookupPool_insertPool_self, poolEntriesOf_cons_pos p rest p.name rfl,
            applyAllEnvs_append, ← hm1]
          cases hrest : List.any rest (fun r => r.name = p.name) with
          | true => simp [hrest]
          | false =>
            rw [poolEntriesOf_eq_nil rest p.name hrest]
            simp [hrest, applyAllEnvs]
        · have hne : ¬ q = p.name := fun e => hq e.symm
          rw [lookupPool_insertPool_ne _ _ _ _ hne, poolEntriesOf_cons_neg p rest q hq]
          simp [hq]

theorem applyEnvList_forbidden_lookup (l : List Env) (m : EnvMap) (k : String)
    (hk : isForbidden k = true) :
    lookupEnv (applyEnvList l m).2 k = lookupEnv m k := by
  induction l generalizing m with
  | nil => rfl
  | cons e l ih =>
    by_cases hf : isForbidden e.name = true
    · simp only [applyEnvList, if_pos hf]
    · simp only [applyEnvList, if_neg hf]
      rw [ih]
      unfold applyEnv
      have hne : ¬ k = e.name := fun hke => hf (hke ▸ hk)
      by_cases hv : e.value = ""
      · rw [if_pos hv, lookupEnv_eraseEnv_ne _ _ _ hne]
      · rw [if_neg hv, lookupEnv_insertEnv_ne _ _ _ _ hne]

theorem applyPools_forbidden_lookup (pools : List PoolEnvs) (pm : PoolEnvMap) (k : String)
    (hk : isForbidden k = true) (q : String) :
    lookupEnv ((lookupPool (applyPools pools pm).2 q).getD []) k =
    lookupEnv ((lookupPool pm q).getD []) k := by
  induction pools generalizing pm with
  | nil => rfl
  | cons p rest ih =>
    cases hel : applyEnvList p.envs ((lookupPool pm p.name).getD []) with
    | mk err m1 =>
      have hm1k : lookupEnv m1 k = lookupEnv ((lookupPool pm p.name).getD []) k := by
        have hs := applyEnvList_forbidden_lookup p.envs ((lookupPool pm p.name).getD []) k hk
        rw [hel] at hs
        exact hs
      cases err with
      | some e =>
        have hstep : (applyPools (p :: rest) pm).2 = insertPool pm p.name m1 := by
          simp only [applyPools, hel]
        rw [hstep]
        by_cases hq : q = p.name
        · subst hq
          rw [lookupPool_insertPool_self]
          exact hm1k
        · rw [lookupPool_insertPool_ne _ _ _ _ hq]
      | none =>
        have hstep : applyPools (p :: rest) pm = applyPools rest (insertPool pm p.name m1) := by
          simp only [applyPools, hel]
        rw [hstep, ih]
        by_cases hq : q = p.name
        · subst hq
          rw [lookupPool_insertPool_self]
          exact hm1k
        · rw [lookupPool_insertPool_ne _ _ _ _ hq]

/-! ## Claim theorems -/

/-- C9: every persisted write to the singleton configuration record is
field-scoped: `SaveImage` sets only the image field, leaving token, envs and
pools unchanged, and `SaveEnvs` sets only the envs and pools fields (to the
lists converted from the maps), leaving image and token unchanged. -/
theorem C9_field_scoped_writes :
    ∀ (r : Config) (digest : String) (em : EnvMap) (pm : PoolEnvMap),
      (∃ r1, saveImageStore (some r) digest = some r1 ∧
        r1.image = digest ∧ r1.token = r.token ∧ r1.envs = r.envs ∧
        r1.pools = r.pools ∧ r1.id = r.id) ∧
      (∃ r2, saveEnvsStore (some r) em pm = some r2 ∧
        r2.image = r.image ∧ r2.token = r.token ∧
        r2.envs = (bsConfigFromEnvMaps em pm).envs ∧
        r2.pools = (bsConfigFromEnvMaps em pm).pools ∧ r2.id = r.id) := by
  intro r digest em pm
  exact ⟨⟨{ r with image := digest }, rfl, rfl, rfl, rfl, rfl, rfl⟩,
    ⟨{ r with envs := (bsConfigFromEnvMaps em pm).envs,
              pools := (bsConfigFromEnvMaps em pm).pools }, rfl, rfl, rfl, rfl, rfl, rfl⟩⟩

/-- C2: a cached non-empty token is returned with no I/O at all; with an
empty cache, a fresh token is issued and conditionally upserted (the upsert
applies exactly when the stored record's token is empty or the record is
missing), and on the duplicate-key outcome the fresh token is logged out,
the record re-loaded, and the stored token returned. -/
theorem C2_token_cache_and_race :
    (∀ (conf : Config) (w : TokenWorld), conf.token ≠ "" →
      getToken conf w = (Except.ok conf.token, conf, w.stored, [])) ∧
    (∀ (conf : Config) (w : TokenWorld) (tok : String) (r : Config),
      conf.token = "" → w.collectionErr = none → w.loginResult = Except.ok tok →
      w.upsertFault = none → w.stored = some r → r.token ≠ "" → w.findErr = none →
      getToken conf w = (Except.ok r.token, r, w.stored,
        [TEvent.login tok, TEvent.upsert tok, TEvent.logout tok, TEvent.find])) ∧
    (∀ (conf : Config) (w : TokenWorld) (tok : String),
      conf.token = "" → w.collectionErr = none → w.loginResult = Except.ok tok →
      w.upsertFault = none →
      (w.stored = none →
        getToken conf w = (Except.ok tok, { conf with token := tok },
          some ⟨"bs", "", tok, [], []⟩, [TEvent.login tok, TEvent.upsert tok])) ∧
      (∀ r, w.stored = some r → r.token = "" →
        getToken conf w = (Except.ok tok, { conf with token := tok },
          some { r with token := tok }, [TEvent.login tok, TEvent.upsert tok]))) := by
  refine ⟨?_, ?_, ?_⟩
  · intro conf w h
    unfold getToken
    rw [if_pos h]
  · intro conf w tok r h1 h2 h3 h4 h5 h6 h7
    simp [getToken, h1, h2, h3, h4, h5, h6, h7]
  · intro conf w tok h1 h2 h3 h4
    constructor
    · intro h5
      simp [getToken, h1, h2, h3, h4, h5]
    · intro r h5 h6
      simp [getToken, h1, h2, h3, h4, h5, h6]

/-- C2 witness: the cached-token clause applied to a concrete configuration,
and the duplicate-key clause applied to a concrete world. -/
theorem C2_token_cache_and_race_witness :
    getToken ⟨"bs", "", "cached", [], []⟩
        ⟨none, Except.ok "f", none, none, none⟩ =
      (Except.ok "cached", ⟨"bs", "", "cached", [], []⟩, none, []) ∧
    getToken ⟨"bs", "", "", [], []⟩
        ⟨none, Except.ok "fresh", none, some ⟨"bs", "", "old", [], []⟩, none⟩ =
      (Except.ok "old", ⟨"bs", "", "old", [], []⟩, some ⟨"bs", "", "old", [], []⟩,
       [TEvent.login "fresh", TEvent.upsert "fresh", TEvent.logout "fresh", TEvent.find]) := by
  constructor
  · exact C2_token_cache_and_race.1 ⟨"bs", "", "cached", [], []⟩
      ⟨none, Except.ok "f", none, none, none⟩ (by decide)
  · exact C2_token_cache_and_race.2.1 ⟨"bs", "", "", [], []⟩
      ⟨none, Except.ok "fresh", none, some ⟨"bs", "", "old", [], []⟩, none⟩
      "fresh" ⟨"bs", "", "old", [], []⟩ rfl rfl rfl rfl rfl (by decide) rfl

/-- C10: whenever the conditional upsert of a freshly issued token fails --
by the duplicate-key race or by any injected storage fault -- the fresh
token is logged out before `getToken` returns, and a non-duplicate storage
error is propagated to the caller. -/
theorem C10_logout_on_upsert_failure :
    ∀ (conf : Config) (w : TokenWorld) (tok : String),
      conf.token = "" → w.collectionErr = none → w.loginResult = Except.ok tok →
      ((∀ e, w.upsertFault = some e →
        (getToken conf w).1 = Except.error e ∧
        TEvent.logout tok ∈ (getToken conf w).2.2.2) ∧
       (∀ r, w.upsertFault = none → w.stored = some r → r.token ≠ "" →
        TEvent.logout tok ∈ (getToken conf w).2.2.2)) := by
  intro conf w tok h1 h2 h3
  constructor
  · intro e h4
    simp [getToken, h1, h2, h3, h4]
  · intro r h4 h5 h6
    cases h7 : w.findErr with
    | some e => simp [getToken, h1, h2, h3, h4, h5, h6, h7]
    | none => simp [getToken, h1, h2, h3, h4, h5, h6, h7]

/-- C10 witness: a concrete injected upsert fault propagates the error after
logging the fresh token out, and a concrete duplicate-key race also logs the
fresh token out. -/
theorem C10_logout_on_upsert_failure_witness :
    ((getToken ⟨"bs", "", "", [], []⟩
        ⟨none, Except.ok "fresh", some "boom", none, none⟩).1 = Except.error "boom" ∧
     TEvent.logout "fresh" ∈ (getToken ⟨"bs", "", "", [], []⟩
        ⟨none, Except.ok "fresh", some "boom", none, none⟩).2.2.2) ∧
    TEvent.logout "fresh" ∈ (getToken ⟨"bs", "", "", [], []⟩
        ⟨none, Except.ok "fresh", none, some ⟨"bs", "", "old", [], []⟩, none⟩).2.2.2 := by
  constructor
  · exact (C10_logout_on_upsert_failure ⟨"bs", "", "", [], []⟩
      ⟨none, Except.ok "fresh", some "boom", none, none⟩ "fresh" rfl rfl rfl).1 "boom" rfl
  · exact (C10_logout_on_upsert_failure ⟨"bs", "", "", [], []⟩
      ⟨none, Except.ok "fresh", none, some ⟨"bs", "", "old", [], []⟩, none⟩ "fresh"
      rfl rfl rfl).2 ⟨"bs", "", "old", [], []⟩ rfl rfl (by decide)

/-- C8: when node enumeration succeeds, every node task runs (one outcome
per node), the orchestrator returns no error exactly when no per-node task
failed, and at least one failure makes the single aggregate result an
error. -/
theorem C8_recreate_aggregate :
    ∀ nodes : List (RNode × DeployWorld),
      (RecreateContainers nodes).2.length = nodes.length ∧
      ((RecreateContainers nodes).1 = none ↔
        ∀ r ∈ (RecreateContainers nodes).2, r = none) ∧
      ((∃ r ∈ (RecreateContainers nodes).2, r ≠ none) →
        (RecreateContainers nodes).1 ≠ none) := by
  intro nodes
  have hlen : (RecreateContainers nodes).2.length = nodes.length := by
    simp [RecreateContainers]
  have hiff : (RecreateContainers nodes).1 = none ↔
      ∀ r ∈ (RecreateContainers nodes).2, r = none := by
    simp only [RecreateContainers]
    rw [List.head?_eq_none_iff, List.filterMap_eq_nil_iff]
    constructor
    · intro h r hr
      exact h r hr
    · intro h r hr
      exact h r hr
  refine ⟨hlen, hiff, ?_⟩
  rintro ⟨r, hr, hrne⟩ hnone
  exact hrne (hiff.mp hnone r hr)

/-- C7: when an otherwise-successful deployment hits the already-exists
outcome on container creation: with `relaunch = false` the already-exists
error is returned with no removal and no retry; with `relaunch = true` the
container is forcibly removed and creation retried exactly once, and a
failing removal or a failing second creation is terminal. -/
theorem C7_relaunch_policy (dockerEndpoint poolName : String) (w : DeployWorld)
    (c : Config) (img : String) (env : List String)
    (h1 : w.newClientErr = none)
    (h2 : loadedConf w.load = Except.ok c)
    (h3 : (pullBsImage (getImage c w.bsImageCfg) w.pull).1 = Except.ok img)
    (h4 : EnvListForEndpoint c dockerEndpoint poolName w.hostCfg w.socketCfg w.syslogCfg
        w.tokenW = Except.ok env)
    (h5 : w.createFirst = CreateOutcome.alreadyExists) :
    ((CreateContainer dockerEndpoint poolName false w).1 = Except.error BsErr.alreadyExists ∧
     (CreateContainer dockerEndpoint poolName false w).2 = [CEvent.createAttempt]) ∧
    (∀ e, w.removeErr = some e →
      (CreateContainer dockerEndpoint poolName true w).1 = Except.error (BsErr.other e) ∧
      (CreateContainer dockerEndpoint poolName true w).2 =
        [CEvent.createAttempt, CEvent.removeContainer]) ∧
    (w.removeErr = none →
      (∀ i, w.createSecond = CreateOutcome.created i →
        (CreateContainer dockerEndpoint poolName true w).2 =
          [CEvent.createAttempt, CEvent.removeContainer, CEvent.createAttempt,
           CEvent.startContainer i]) ∧
      (w.createSecond = CreateOutcome.alreadyExists →
        (CreateContainer dockerEndpoint poolName true w).1 = Except.error BsErr.alreadyExists ∧
        (CreateContainer dockerEndpoint poolName true w).2 =
          [CEvent.createAttempt, CEvent.removeContainer, CEvent.createAttempt]) ∧
      (∀ m, w.createSecond = CreateOutcome.fail m →
        (CreateContainer dockerEndpoint poolName true w).1 = Except.error (BsErr.other m) ∧
        (CreateContainer dockerEndpoint poolName true w).2 =
          [CEvent.createAttempt, CEvent.removeContainer, CEvent.createAttempt])) := by
  refine ⟨?_, ?_, ?_⟩
  · constructor <;> simp [CreateContainer, afterCreate, h1, h2, h3, h4, h5]
  · intro e hre
    constructor <;> simp [CreateContainer, afterCreate, h1, h2, h3, h4, h5, hre]
  · intro hre
    refine ⟨?_, ?_, ?_⟩
    · intro i hcs
      cases hse : w.startErr with
      | some e => simp [CreateContainer, afterCreate, h1, h2, h3, h4, h5, hre, hcs, hse]
      | none => simp [CreateContainer, afterCreate, h1, h2, h3, h4, h5, hre, hcs, hse]
    · intro hcs
      constructor <;> simp [CreateContainer, afterCreate, h1, h2, h3, h4, h5, hre, hcs]
    · intro m hcs
      constructor <;> simp [CreateContainer, afterCreate, h1, h2, h3, h4, h5, hre, hcs]

/-- C7 witness: the relaunch-false and relaunch-true clauses applied to a
concrete world whose first creation hits the already-exists outcome. -/
theorem C7_relaunch_policy_witness :
    (CreateContainer "ep" "p" false
      ⟨none, LoadOutcome.found ⟨"bs", "", "tok", [], []⟩, "",
       ⟨none, Except.ok "", none⟩, "", "", 0,
       ⟨none, Except.ok "t", none, none, none⟩,
       CreateOutcome.alreadyExists, none, CreateOutcome.created "cid", none⟩).1 =
      Except.error BsErr.alreadyExists ∧
    (CreateContainer "ep" "p" true
      ⟨none, LoadOutcome.found ⟨"bs", "", "tok", [], []⟩, "",
       ⟨none, Except.ok "", none⟩, "", "", 0,
       ⟨none, Except.ok "t", none, none, none⟩,
       CreateOutcome.alreadyExists, none, CreateOutcome.created "cid", none⟩).2 =
      [CEvent.createAttempt, CEvent.removeContainer, CEvent.createAttempt,
       CEvent.startContainer "cid"] := by
  constructor
  · exact ((C7_relaunch_policy "ep" "p"
      ⟨none, LoadOutcome.found ⟨"bs", "", "tok", [], []⟩, "",
       ⟨none, Except.ok "", none⟩, "", "", 0,
       ⟨none, Except.ok "t", none, none, none⟩,
       CreateOutcome.alreadyExists, none, CreateOutcome.created "cid", none⟩
      ⟨"bs", "", "tok", [], []⟩ "tsuru/bs"
      ["DOCKER_ENDPOINT=ep", "TSURU_ENDPOINT=http:/", "TSURU_TOKEN=tok",
       "SYSLOG_LISTEN_ADDRESS=udp://0.0.0.0:1514"]
      rfl rfl rfl rfl rfl).1).1
  · exact (((C7_relaunch_policy "ep" "p"
      ⟨none, LoadOutcome.found ⟨"bs", "", "tok", [], []⟩, "",
       ⟨none, Except.ok "", none⟩, "", "", 0,
       ⟨none, Except.ok "t", none, none, none⟩,
       CreateOutcome.alreadyExists, none, CreateOutcome.created "cid", none⟩
      ⟨"bs", "", "tok", [], []⟩ "tsuru/bs"
      ["DOCKER_ENDPOINT=ep", "TSURU_ENDPOINT=http:/", "TSURU_TOKEN=tok",
       "SYSLOG_LISTEN_ADDRESS=udp://0.0.0.0:1514"]
      rfl rfl rfl rfl rfl).2.2) rfl).1 "cid" rfl

/-! ## Split/pin lemmas -/

theorem splitChar_ne_nil (c : Char) (s : List Char) : splitChar c s ≠ [] := by
  cases s with
  | nil => simp [splitChar]
  | cons a rest =>
    cases hpr : splitChar c rest with
    | nil => simp [splitChar, hpr]
    | cons h t => by_cases hac : a = c <;> simp [splitChar, hpr, hac]

theorem joinChar_cons_head (c a : Char) (h t0 : List Char) (t : List (List Char)) :
    joinChar c ((a :: h) :: t0 :: t) = a :: joinChar c (h :: t0 :: t) := rfl

theorem joinChar_cons_single (c a : Char) (h : List Char) :
    joinChar c [a :: h] = a :: joinChar c [h] := rfl

theorem splitChar_none (c : Char) (s : List Char) (h : afterFirstChar c s = none) :
    splitChar c s = [s] := by
  induction s with
  | nil => rfl
  | cons a rest ih =>
    by_cases hac : a = c
    · simp [afterFirstChar, hac] at h
    · have h2 : afterFirstChar c rest = none := by
        simpa [afterFirstChar, hac] using h
      simp [splitChar, ih h2, hac]

theorem splitChar_some (c : Char) (s r : List Char)
    (h : afterFirstChar c s = some r) :
    splitChar c s = List.takeWhile (fun x => ¬ x = c) s :: splitChar c r := by
  induction s with
  | nil => simp [afterFirstChar] at h
  | cons a rest ih =>
    by_cases hac : a = c
    · have hr : r = rest := by
        simp [afterFirstChar, hac] at h
        exact h.symm
      subst hr
      cases hpr : splitChar c r with
      | nil => exact absurd hpr (splitChar_ne_nil c r)
      | cons x t =>
        simp [splitChar, hpr, hac, List.takeWhile_cons]
    · have h2 : afterFirstChar c rest = some r := by
        simpa [afterFirstChar, hac] using h
      cases hpr : splitChar c rest with
      | nil => exact absurd hpr (splitChar_ne_nil c rest)
      | cons x t =>
        have hih := ih h2
        rw [hpr] at hih
        obtain ⟨hx, ht⟩ := List.cons.inj hih
        simp [splitChar, hpr, hac, List.takeWhile_cons, hx, ht]

theorem joinChar_splitChar (c : Char) (s : List Char) :
    joinChar c (splitChar c s) = s := by
  induction s with
  | nil => rfl
  | cons a rest ih =>
    cases hpr : splitChar c rest with
    | nil => exact absurd hpr (splitChar_ne_nil c rest)
    | cons h t =>
      rw [hpr] at ih
      by_cases hac : a = c
      · simp only [splitChar, hpr, if_pos hac]
        simp [joinChar, ih, hac]
      · simp only [splitChar, hpr, if_neg hac]
        cases t with
        | nil => rw [joinChar_cons_single, ih]
        | cons t0 tt => rw [joinChar_cons_head, ih]

theorem getLastD_splitNChar (c : Char) (n : Nat) (s : List Char) :
    List.getLastD (splitNChar c (n + 1) s) [] = tailAfterChars c n s := by
  induction n generalizing s with
  | zero =>
    simp only [splitNChar]
    cases hp : splitChar c s with
    | nil => exact absurd hp (splitChar_ne_nil c s)
    | cons h t =>
      have hj := joinChar_splitChar c s
      rw [hp] at hj
      cases t with
      | nil =>
        rw [if_pos (by simp)]
        simpa [tailAfterChars, joinChar] using hj
      | cons y t2 =>
        rw [if_neg (by simp)]
        simpa [tailAfterChars] using hj
  | succ n ih =>
    cases ha : afterFirstChar c s with
    | none =>
      have hp := splitChar_none c s ha
      simp only [splitNChar, hp]
      rw [if_pos (by simp)]
      simp [tailAfterChars, ha]
    | some r =>
      have hp := splitChar_some c s r ha
      have htail : tailAfterChars c (n + 1) s = tailAfterChars c n r := by
        simp [tailAfterChars, ha]
      rw [htail, ← ih r]
      rw [show splitNChar c (n + 1 + 1) s =
          (let parts := splitChar c s
           if parts.length ≤ n + 1 + 1 then parts
           else List.take (n + 1 + 1 - 1) parts
             ++ [joinChar c (List.drop (n + 1 + 1 - 1) parts)]) from rfl]
      rw [show splitNChar c (n + 1) r =
          (let parts := splitChar c r
           if parts.length ≤ n + 1 then parts
           else List.take (n + 1 - 1) parts
             ++ [joinChar c (List.drop (n + 1 - 1) parts)]) from rfl]
      simp only [hp]
      cases hpr : splitChar c r with
      | nil => exact absurd hpr (splitChar_ne_nil c r)
      | cons h t =>
        by_cases hlen : (h :: t).length ≤ n + 1
        · rw [if_pos (by simp only [List.length_cons] at hlen ⊢; omega), if_pos hlen]
          rw [List.getLastD_cons, List.getLastD_cons, List.getLastD_cons]
        · rw [if_neg (by simp only [List.length_cons] at hlen ⊢; omega), if_neg hlen]
          have e1 : n + 1 + 1 - 1 = n + 1 := rfl
          have e2 : n + 1 - 1 = n := rfl
          rw [e1, e2, List.getLastD_concat, List.getLastD_concat,
            List.drop_succ_cons]

theorem splitChar_length_one (c : Char) (l : List Char) :
    (splitChar c l).length = 1 ↔ List.any l (fun x => x = c) = false := by
  induction l with
  | nil => simp [splitChar]
  | cons a rest ih =>
    cases hpr : splitChar c rest with
    | nil => exact absurd hpr (splitChar_ne_nil c rest)
    | cons h t =>
      rw [hpr] at ih
      by_cases hac : a = c
      · simp [splitChar, hpr, hac]
      · simpa [splitChar, hpr, hac] using ih

theorem splitNChar_two_length (c : Char) (l : List Char) :
    (splitNChar c 2 l).length =
      if List.any l (fun x => x = c) = true then 2 else 1 := by
  simp only [splitNChar]
  cases hany : List.any l (fun x => x = c) with
  | false =>
    have h1 : (splitChar c l).length = 1 := (splitChar_length_one c l).mpr hany
    rw [if_pos (by omega)]
    simpa using h1
  | true =>
    have h1 : ¬ (splitChar c l).length = 1 := by
      rw [splitChar_length_one]
      simp [hany]
    have h2 : 1 ≤ (splitChar c l).length := by
      cases hp : splitChar c l with
      | nil => exact absurd hp (splitChar_ne_nil c l)
      | cons h t => simp
    by_cases hle : (splitChar c l).length ≤ 2
    · rw [if_pos hle]
      have hval : (splitChar c l).length = 2 := by omega
      simpa using hval
    · rw [if_neg hle]
      simp only [List.length_append, List.length_take, List.length_cons,
        List.length_nil]
      simp
      omega

theorem shouldPin_eq_tailAfter (image : String) :
    shouldPinBsImage image =
      ! List.any (tailAfterChars '/' 2 image.data) (fun c => c = ':') := by
  simp only [shouldPinBsImage]
  rw [getLastD_splitNChar '/' 2 image.data, splitNChar_two_length]
  cases hany : List.any (tailAfterChars '/' 2 image.data) (fun c => c = ':') with
  | true => simp [hany]
  | false => simp [hany]

/-- C5 counterexample: on the reference `a/b/c:1/d` the code does not pin
(the third `SplitN` piece `c:1/d` contains a colon) although the trailing
path segment `d` after the last slash has no colon, so the claimed
last-segment rule disagrees with `shouldPinBsImage` at this input. -/
theorem C5_counterexample :
    shouldPinBsImage "a/b/c:1/d" = false ∧
    specPinLastSegment "a/b/c:1/d" = true ∧
    shouldPinBsImage "a/b/c:1/d" ≠ specPinLastSegment "a/b/c:1/d" :=
  ⟨by decide, by decide, by decide⟩

/-- C5 amended: `shouldPinBsImage` pins exactly when the portion of the
reference after its second `/` (the whole reference when it has fewer than
two slashes) contains no colon; the spec's three examples hold as stated. -/
theorem C5_amended_pin_rule :
    (∀ image : String,
      shouldPinBsImage image =
        ! List.any (tailAfterChars '/' 2 image.data) (fun c => c = ':')) ∧
    shouldPinBsImage "repo/image" = true ∧
    shouldPinBsImage "repo/image:1.0" = false ∧
    shouldPinBsImage "registry:5000/repo/image" = true :=
  ⟨shouldPin_eq_tailAfter, by decide, by decide, by decide⟩

/-- C6 counterexample: with pull output containing two digest lines the code
appends the value of the first matching line, not the last one the claim
names. -/
theorem C6_counterexample :
    (pullBsImage "repo/image"
      ⟨none, Except.ok "Digest: aaa\nDigest: bbb", none⟩).2 = some "repo/image@aaa" ∧
    lastDigest "Digest: aaa\nDigest: bbb" = some "bbb".data ∧
    (pullBsImage "repo/image"
      ⟨none, Except.ok "Digest: aaa\nDigest: bbb", none⟩).2 ≠
      some ("repo/image" ++ "@" ++ String.mk "bbb".data) :=
  ⟨rfl, rfl, by decide⟩

/-- C6 amended: when pinning applies, `pullBsImage` appends `@<value>` from
the FIRST line of the captured output matching `Digest: <value>`; absence of
any matching line is not an error and the unpinned reference is saved
as-is. -/
theorem C6_first_digest_pin :
    ∀ (image : String) (w : PullWorld) (output : String),
      w.clientErr = none → w.pullResult = Except.ok output →
      shouldPinBsImage image = true →
      ((∀ pre line suf v,
          splitChar '\n' output.data = pre ++ line :: suf →
          digestOfLine line = some v →
          (∀ l ∈ pre, digestOfLine l = none) →
          (pullBsImage image w).2 = some (image ++ "@" ++ String.mk v) ∧
          (w.saveErr = none →
            (pullBsImage image w).1 = Except.ok (image ++ "@" ++ String.mk v))) ∧
       ((∀ l ∈ splitChar '\n' output.data, digestOfLine l = none) →
          (pullBsImage image w).2 = some image ∧
          (w.saveErr = none → (pullBsImage image w).1 = Except.ok image))) := by
  intro image w output h1 h2 h3
  constructor
  · intro pre line suf v hlines hline hpre
    have hfd : firstDigest output = some v := by
      unfold firstDigest
      rw [hlines, List.filterMap_append, List.filterMap_eq_nil_iff.mpr hpre]
      simp [List.filterMap_cons, hline]
    have hpin : pinImage image output = image ++ "@" ++ String.mk v := by
      unfold pinImage
      rw [if_pos h3, hfd]
    constructor
    · cases hs : w.saveErr <;> simp [pullBsImage, h1, h2, hs, hpin]
    · intro hsave
      simp [pullBsImage, h1, h2, hsave, hpin]
  · intro hnone
    have hfd : firstDigest output = none := by
      unfold firstDigest
      rw [List.filterMap_eq_nil_iff.mpr hnone]
      rfl
    have hpin : pinImage image output = image := by
      unfold pinImage
      rw [if_pos h3, hfd]
    constructor
    · cases hs : w.saveErr <;> simp [pullBsImage, h1, h2, hs, hpin]
    · intro hsave
      simp [pullBsImage, h1, h2, hsave, hpin]

/-- C6 witness: the first-match clause applied to a concrete output whose
only digest line sits between two non-matching lines. -/
theorem C6_first_digest_pin_witness :
    (pullBsImage "repo/image" ⟨none, Except.ok "x\nDigest: d1\ny", none⟩).2 =
      some ("repo/image" ++ "@" ++ String.mk "d1".data) := by
  exact ((C6_first_digest_pin "repo/image" ⟨none, Except.ok "x\nDigest: d1\ny", none⟩
    "x\nDigest: d1\ny" rfl rfl (by decide)).1 ["x".data] "Digest: d1".data ["y".data]
    "d1".data (by decide) (by decide) (by decide)).1

/-- C3: a patch carrying a reserved name fails with the error naming the
first offending key; entries before that entry (all global entries first,
then each pool's entries in order) have been applied, entries at and after
it have not, and no forbidden key's binding in either map is ever touched. -/
theorem C3_forbidden_fail_fast :
    (∀ (conf : Config) (m : EnvMap) (pm : PoolEnvMap) (pre : List Env) (off : Env)
        (post : List Env),
      conf.envs = pre ++ off :: post →
      (∀ e ∈ pre, isForbidden e.name = false) →
      isForbidden off.name = true →
      UpdateEnvMaps conf m pm =
        (some ("cannot set " ++ off.name ++ " variable"), applyAllEnvs pre m, pm)) ∧
    (∀ (conf : Config) (m : EnvMap) (pm : PoolEnvMap) (ppre : List PoolEnvs)
        (p : PoolEnvs) (ppost : List PoolEnvs) (pre : List Env) (off : Env)
        (post : List Env),
      conf.pools = ppre ++ p :: ppost →
      (∀ e ∈ conf.envs, isForbidden e.name = false) →
      (∀ r ∈ ppre, ∀ e ∈ r.envs, isForbidden e.name = false) →
      p.envs = pre ++ off :: post →
      (∀ e ∈ pre, isForbidden e.name = false) →
      isForbidden off.name = true →
      UpdateEnvMaps conf m pm =
        (some ("cannot set " ++ off.name ++ " variable"),
         applyAllEnvs conf.envs m,
         insertPool (applyAllPools ppre pm) p.name
           (applyAllEnvs pre ((lookupPool (applyAllPools ppre pm) p.name).getD [])))) ∧
    (∀ (conf : Config) (m : EnvMap) (pm : PoolEnvMap) (k : String),
      isForbidden k = true →
      lookupEnv (UpdateEnvMaps conf m pm).2.1 k = lookupEnv m k ∧
      (∀ q, lookupEnv ((lookupPool (UpdateEnvMaps conf m pm).2.2 q).getD []) k =
        lookupEnv ((lookupPool pm q).getD []) k)) := by
  refine ⟨?_, ?_, ?_⟩
  · intro conf m pm pre off post hE hclean hoff
    have h1 := applyEnvList_offend pre off post m hclean hoff
    simp only [UpdateEnvMaps, hE, h1]
  · intro conf m pm ppre p ppost pre off post hP hEclean hppre hsplit hclean hoff
    have h1 := applyEnvList_clean conf.envs m hEclean
    have h2 := applyPools_offend ppre p ppost pm pre off post hppre hsplit hclean hoff
    simp only [UpdateEnvMaps, h1, hP, h2]
  · intro conf m pm k hk
    have hglob := applyEnvList_forbidden_lookup conf.envs m k hk
    cases hel : applyEnvList conf.envs m with
    | mk err em =>
      rw [hel] at hglob
      cases err with
      | some e =>
        refine ⟨?_, fun q => ?_⟩
        · simp only [UpdateEnvMaps, hel]
          exact hglob
        · simp only [UpdateEnvMaps, hel]
      | none =>
        have hpool := applyPools_forbidden_lookup conf.pools pm k hk
        refine ⟨?_, fun q => ?_⟩
        · simp only [UpdateEnvMaps, hel]
          exact hglob
        · simp only [UpdateEnvMaps, hel]
          exact hpool q

/-- C3 witness: the global-offender clause at a concrete patch whose second
entry is reserved: the first entry has been applied, the rest not, and the
error names the offending key. -/
theorem C3_forbidden_fail_fast_witness :
    UpdateEnvMaps ⟨"", "", "", [⟨"A", "1"⟩, ⟨"TSURU_TOKEN", "x"⟩, ⟨"B", "2"⟩], []⟩ [] [] =
      (some "cannot set TSURU_TOKEN variable", [("A", "1")], []) := by
  have h := C3_forbidden_fail_fast.1
    ⟨"", "", "", [⟨"A", "1"⟩, ⟨"TSURU_TOKEN", "x"⟩, ⟨"B", "2"⟩], []⟩ [] []
    [⟨"A", "1"⟩] ⟨"TSURU_TOKEN", "x"⟩ [⟨"B", "2"⟩] rfl (by decide) (by decide)
  exact h.trans (by decide)

/-- C4: on a successful merge, each key's final binding in the global map is
decided by the last patch entry for it (empty value deletes, non-empty value
upserts, no entry keeps the previous binding); each pool's map likewise
combines that pool's entries over its previous map, is created exactly when
the patch mentions the pool, and pools never mentioned keep their old map. -/
theorem C4_per_entry_semantics :
    ∀ (conf : Config) (m : EnvMap) (pm : PoolEnvMap) (em : EnvMap) (pm2 : PoolEnvMap),
      UpdateEnvMaps conf m pm = (none, em, pm2) →
      (∀ k, lookupEnv em k = applyLast (lastVal conf.envs k) (lookupEnv m k)) ∧
      (∀ q, lookupPool pm2 q =
        if List.any conf.pools (fun p => p.name = q) then
          some (applyAllEnvs (poolEntries conf q) ((lookupPool pm q).getD []))
        else lookupPool pm q) ∧
      (∀ q k, lookupEnv ((lookupPool pm2 q).getD []) k =
        applyLast (lastVal (poolEntries conf q) k)
          (lookupEnv ((lookupPool pm q).getD []) k)) ∧
      (∀ q, lookupPool pm2 q = none ↔
        (lookupPool pm q = none ∧
         List.any conf.pools (fun p => p.name = q) = false)) := by
  intro conf m pm em pm2 hU
  cases hel : applyEnvList conf.envs m with
  | mk err m1 =>
    cases err with
    | some e =>
      exfalso
      simp only [UpdateEnvMaps, hel] at hU
      exact Option.noConfusion (congrArg Prod.fst hU)
    | none =>
      cases hap : applyPools conf.pools pm with
      | mk err2 pmr =>
        simp only [UpdateEnvMaps, hel, hap, Prod.mk.injEq] at hU
        obtain ⟨he2, hm1, hpmr⟩ := hU
        subst he2 hm1 hpmr
        have hm1e : m1 = applyAllEnvs conf.envs m := by
          have hs := applyEnvList_none_snd conf.envs m (by rw [hel])
          rw [hel] at hs
          exact hs
        have hlook := applyPools_none_lookup conf.pools pm (by rw [hap])
        rw [hap] at hlook
        refine ⟨?_, ?_, ?_, ?_⟩
        · intro k
          rw [hm1e, lookupEnv_applyAllEnvs]
        · intro q
          simpa only [poolEntries] using hlook q
        · intro q k
          rw [hlook q]
          simp only [poolEntries]
          cases hany : List.any conf.pools (fun p => p.name = q) with
          | true => simp [lookupEnv_applyAllEnvs]
          | false =>
            rw [if_neg (by simp)]
            rw [poolEntriesOf_eq_nil conf.pools q hany]
            rfl
        · intro q
          rw [hlook q]
          cases hany : List.any conf.pools (fun p => p.name = q) with
          | true => simp
          | false => simp

/-- C4 witness: the key-level clauses at a concrete successful merge
applying a deletion, an upsert and a lazy pool-map creation. -/
theorem C4_per_entry_semantics_witness :
    lookupEnv [("B", "2")] "A" =
      applyLast (lastVal [⟨"A", ""⟩, ⟨"B", "2"⟩] "A") (lookupEnv [("A", "0")] "A") ∧
    (lookupPool [("p1", [("C", "3")])] "p2" = none ↔
      (lookupPool ([] : PoolEnvMap) "p2" = none ∧
       List.any [PoolEnvs.mk "p1" [⟨"C", "3"⟩]] (fun p => p.name = "p2") = false)) := by
  have h := C4_per_entry_semantics
    ⟨"", "", "", [⟨"A", ""⟩, ⟨"B", "2"⟩], [⟨"p1", [⟨"C", "3"⟩]⟩]⟩
    [("A", "0")] [] [("B", "2")] [("p1", [("C", "3")])] rfl
  exact ⟨h.1 "A", h.2.2.2 "p2"⟩

/-! ## Entry-name and counting lemmas -/

theorem data_append (s t : String) : (s ++ t).data = s.data ++ t.data := by
  cases s with
  | mk a => cases t with
    | mk b => rfl

theorem mk_data (s : String) : String.mk s.data = s := by
  cases s with
  | mk a => rfl

theorem takeWhile_stop {p : Char → Bool} (l1 l2 : List Char)
    (h : ∃ a ∈ l1, ¬ p a = true) :
    List.takeWhile p (l1 ++ l2) = List.takeWhile p l1 := by
  induction l1 with
  | nil =>
    rcases h with ⟨a, ha, _⟩
    exact absurd ha (List.not_mem_nil a)
  | cons x l1 ih =>
    by_cases hx : p x = true
    · rw [List.cons_append, List.takeWhile_cons, if_pos hx, List.takeWhile_cons, if_pos hx]
      rcases h with ⟨a, ha, hpa⟩
      rcases List.mem_cons.mp ha with rfl | ha2
      · exact absurd hx hpa
      · rw [ih ⟨a, ha2, hpa⟩]
    · rw [List.cons_append, List.takeWhile_cons, if_neg hx, List.takeWhile_cons, if_neg hx]

theorem entryName_concat (s t : String)
    (h : List.any s.data (fun c => c = '=') = true) :
    entryName (s ++ t) = entryName s := by
  unfold entryName
  rw [data_append]
  congr 1
  apply takeWhile_stop
  rcases List.any_eq_true.mp h with ⟨c, hc, hceq⟩
  refine ⟨c, hc, ?_⟩
  simp at hceq
  simp [hceq]

theorem entryName_merged (k v : String)
    (hk : List.any k.data (fun c => c = '=') = false) :
    entryName (k ++ "=" ++ v) = k := by
  have hall : ∀ a ∈ k.data, (fun c => (¬ c = '=' : Bool)) a = true := by
    simp only [List.any_eq_false, decide_eq_true_eq] at hk
    intro a ha
    simpa using hk a ha
  unfold entryName
  rw [data_append, data_append, List.append_assoc,
    List.takeWhile_append_of_pos hall]
  rw [show ("=".data ++ v.data : List Char) = '=' :: v.data from rfl]
  rw [List.takeWhile_cons, if_neg (by simp), List.append_nil, mk_data]

theorem reservedKeys_forbidden : ∀ k ∈ reservedKeys, isForbidden k = true := by decide

theorem countKey_cons (s : String) (l : List String) (k : String) :
    countKey (s :: l) k = (if entryName s = k then 1 else 0) + countKey l k := by
  unfold countKey
  rw [List.filter_cons]
  by_cases h : entryName s = k
  · rw [if_pos (by simp [h]), if_pos h, List.length_cons]
    omega
  · rw [if_neg (by simp [h]), if_neg h]
    omega

theorem countKey_append (l1 l2 : List String) (k : String) :
    countKey (l1 ++ l2) k = countKey l1 k + countKey l2 k := by
  unfold countKey
  rw [List.filter_append, List.length_append]

theorem countKey_eq_zero (l : List String) (k : String)
    (h : ∀ s ∈ l, ¬ entryName s = k) : countKey l k = 0 := by
  unfold countKey
  rw [List.filter_eq_nil_iff.mpr (by intro a ha; simpa using h a ha)]
  rfl

theorem mem_poolEntriesOf {pools : List PoolEnvs} {q : String} {e : Env}
    (h : e ∈ poolEntriesOf pools q) : ∃ p ∈ pools, e ∈ p.envs := by
  induction pools with
  | nil => exact absurd h (List.not_mem_nil e)
  | cons p rest ih =>
    by_cases hq : p.name = q
    · rw [poolEntriesOf_cons_pos p rest q hq] at h
      rcases List.mem_append.mp h with h | h
      · exact ⟨p, List.mem_cons_self p rest, h⟩
      · rcases ih h with ⟨p2, hp2, he2⟩
        exact ⟨p2, List.mem_cons_of_mem _ hp2, he2⟩
    · rw [poolEntriesOf_cons_neg p rest q hq] at h
      rcases ih h with ⟨p2, hp2, he2⟩
      exact ⟨p2, List.mem_cons_of_mem _ hp2, he2⟩

theorem applyPools_none_clean (pools : List PoolEnvs) (pm : PoolEnvMap)
    (h : (applyPools pools pm).1 = none) :
    ∀ p ∈ pools, ∀ e ∈ p.envs, isForbidden e.name = false := by
  induction pools generalizing pm with
  | nil =>
    intro p hp
    exact absurd hp (List.not_mem_nil p)
  | cons p rest ih =>
    cases hel : applyEnvList p.envs ((lookupPool pm p.name).getD []) with
    | mk err m1 =>
      cases err with
      | some e =>
        exfalso
        simp only [applyPools, hel] at h
        exact Option.noConfusion h
      | none =>
        have hstep : applyPools (p :: rest) pm
            = applyPools rest (insertPool pm p.name m1) := by
          simp only [applyPools, hel]
        rw [hstep] at h
        intro r hr
        rcases List.mem_cons.mp hr with rfl | hr2
        · exact applyEnvList_none_clean r.envs _ (by rw [hel])
        · exact ih _ h r hr2

theorem getToken_receiver (conf : Config) (w : TokenWorld) :
    ((getToken conf w).2.1.envs = conf.envs ∧ (getToken conf w).2.1.pools = conf.pools) ∨
    (∃ r, w.stored = some r ∧ (getToken conf w).2.1 = r) := by
  unfold getToken
  by_cases h1 : conf.token ≠ ""
  · rw [if_pos h1]
    exact Or.inl ⟨rfl, rfl⟩
  · rw [if_neg h1]
    cases hc : w.collectionErr with
    | some e => exact Or.inl ⟨rfl, rfl⟩
    | none =>
      cases hl : w.loginResult with
      | error e => exact Or.inl ⟨rfl, rfl⟩
      | ok tok =>
        cases hu : w.upsertFault with
        | some e => exact Or.inl ⟨rfl, rfl⟩
        | none =>
          cases hs : w.stored with
          | none => exact Or.inl ⟨rfl, rfl⟩
          | some r =>
            dsimp only
            by_cases hr : r.token = ""
            · rw [if_pos hr]
              exact Or.inl ⟨rfl, rfl⟩
            · rw [if_neg hr]
              cases hf : w.findErr with
              | some e => exact Or.inl ⟨rfl, rfl⟩
              | none => exact Or.inr ⟨r, rfl, rfl⟩

theorem confForbiddenFree_ext (a b : Config) (he : a.envs = b.envs)
    (hp : a.pools = b.pools) : confForbiddenFree a = confForbiddenFree b := by
  unfold confForbiddenFree
  rw [he, hp]

theorem confEqFree_ext (a b : Config) (he : a.envs = b.envs)
    (hp : a.pools = b.pools) : confEqFree a = confEqFree b := by
  unfold confEqFree
  rw [he, hp]

/-- C1 counterexample: a stored configuration free of the four forbidden
keys but whose override name itself contains `=` (here `TSURU_TOKEN=x`)
makes `EnvListForEndpoint` emit a second entry carrying the reserved name
`TSURU_TOKEN`, so the returned list does not contain exactly one entry for
each reserved key. -/
theorem C1_counterexample :
    confForbiddenFree ⟨"bs", "", "tok", [⟨"TSURU_TOKEN=x", "y"⟩], []⟩ = true ∧
    EnvListForEndpoint ⟨"bs", "", "tok", [⟨"TSURU_TOKEN=x", "y"⟩], []⟩ "ep" "p" "" "" 0
        ⟨none, Except.ok "f", none, none, none⟩ =
      Except.ok ["DOCKER_ENDPOINT=ep", "TSURU_ENDPOINT=http:/", "TSURU_TOKEN=tok",
        "SYSLOG_LISTEN_ADDRESS=udp://0.0.0.0:1514", "TSURU_TOKEN=x=y"] ∧
    countKey ["DOCKER_ENDPOINT=ep", "TSURU_ENDPOINT=http:/", "TSURU_TOKEN=tok",
        "SYSLOG_LISTEN_ADDRESS=udp://0.0.0.0:1514", "TSURU_TOKEN=x=y"] "TSURU_TOKEN"
      ≠ 1 :=
  ⟨by decide, rfl, by decide⟩

/-- C1 amended: provided additionally that no override name contains `=`
(in the receiver and in any stored record the token provider may reload),
every successfully returned list carries exactly one entry per reserved key,
its first four entries are the system-computed ones, and no merged override
entry carries a reserved name; a configuration holding a forbidden key makes
the call return an error. -/
theorem C1_reserved_env_entries :
    (∀ (conf : Config) (dE pN hC sC : String) (syC : Nat) (tw : TokenWorld)
        (l : List String) (tok : String),
      confForbiddenFree conf = true → confEqFree conf = true →
      (∀ r, tw.stored = some r → confForbiddenFree r = true ∧ confEqFree r = true) →
      (getToken conf tw).1 = Except.ok tok →
      EnvListForEndpoint conf dE pN hC sC syC tw = Except.ok l →
      (∀ k ∈ reservedKeys, countKey l k = 1) ∧
      List.take 4 l =
        ["DOCKER_ENDPOINT=" ++
           (if sC ≠ "" then "unix:///var/run/docker.sock" else dE),
         "TSURU_ENDPOINT=" ++ normalizeHost hC,
         "TSURU_TOKEN=" ++ tok,
         "SYSLOG_LISTEN_ADDRESS=udp://0.0.0.0:" ++ Nat.repr (SysLogPort syC)] ∧
      (∀ s ∈ List.drop 4 l, entryName s ∉ reservedKeys)) ∧
    (∀ (conf : Config) (dE pN hC sC : String) (syC : Nat) (tw : TokenWorld),
      confForbiddenFree ((getToken conf tw).2.1) = false →
      ∃ e, EnvListForEndpoint conf dE pN hC sC syC tw = Except.error e) := by
  constructor
  · intro conf dE pN hC sC syC tw l tok hff hef hst hgt hE
    have hc2f : confForbiddenFree ((getToken conf tw).2.1) = true := by
      rcases getToken_receiver conf tw with ⟨he, hp⟩ | ⟨r, hsr, heq⟩
      · rw [confForbiddenFree_ext _ conf he hp]
        exact hff
      · rw [heq]
        exact (hst r hsr).1
    have hc2e : confEqFree ((getToken conf tw).2.1) = true := by
      rcases getToken_receiver conf tw with ⟨he, hp⟩ | ⟨r, hsr, heq⟩
      · rw [confEqFree_ext _ conf he hp]
        exact hef
      · rw [heq]
        exact (hst r hsr).2
    cases hG : getToken conf tw with
    | mk res rest =>
    cases rest with
    | mk conf2 rest2 =>
    cases rest2 with
    | mk st2 tr =>
    rw [hG] at hgt hc2f hc2e
    dsimp only at hgt hc2f hc2e
    subst hgt
    simp only [EnvListForEndpoint, hG] at hE
    cases hU : UpdateEnvMaps conf2 [] [] with
    | mk err rest3 =>
    cases rest3 with
    | mk em pm =>
    rw [hU] at hE
    cases err with
    | some e => simp at hE
    | none =>
    dsimp only at hE
    injection hE with hl
    subst hl
    cases hel : applyEnvList conf2.envs [] with
    | mk err1 m1 =>
    cases err1 with
    | some e1 =>
      exfalso
      have hUU := hU
      simp only [UpdateEnvMaps, hel] at hUU
      exact Option.noConfusion (congrArg Prod.fst hUU)
    | none =>
    cases hap : applyPools conf2.pools [] with
    | mk err2 pmr =>
    cases err2 with
    | some e2 =>
      exfalso
      have hUU := hU
      simp only [UpdateEnvMaps, hel, hap] at hUU
      exact Option.noConfusion (congrArg Prod.fst hUU)
    | none =>
    have hUU := hU
    simp only [UpdateEnvMaps, hel, hap, Prod.mk.injEq, true_and] at hUU
    obtain ⟨hm1, hpmr⟩ := hUU
    subst hm1
    subst hpmr
    have hm1e : m1 = applyAllEnvs conf2.envs [] := by
      have hs2 := applyEnvList_none_snd conf2.envs [] (by rw [hel])
      rw [hel] at hs2
      exact hs2
    have hcfacts : (∀ e ∈ conf2.envs, isForbidden e.name = false ∧
          List.any e.name.data (fun c => c = '=') = false) ∧
        (∀ p ∈ conf2.pools, ∀ e ∈ p.envs, isForbidden e.name = false ∧
          List.any e.name.data (fun c => c = '=') = false) := by
      simp only [confForbiddenFree, confEqFree, Bool.and_eq_true, List.all_eq_true,
        decide_eq_true_eq] at hc2f hc2e
      obtain ⟨hf1, hf2⟩ := hc2f
      obtain ⟨he1, he2⟩ := hc2e
      constructor
      · intro e he
        exact ⟨Bool.eq_false_iff.mpr (hf1 e he), Bool.eq_false_iff.mpr (he1 e he)⟩
      · intro p hp e he
        exact ⟨Bool.eq_false_iff.mpr (hf2 p hp e he), Bool.eq_false_iff.mpr (he2 p hp e he)⟩
    have hkeysA : ∀ x ∈ m1, isForbidden x.1 = false ∧
        List.any x.1.data (fun c => c = '=') = false := by
      rw [hm1e]
      exact applyAllEnvs_keys
        (fun n => isForbidden n = false ∧ List.any n.data (fun c => c = '=') = false)
        conf2.envs [] (fun e he => hcfacts.1 e he)
        (fun x hx => absurd hx (List.not_mem_nil x))
    have hlookpm := applyPools_none_lookup conf2.pools [] (by rw [hap]) pN
    rw [hap] at hlookpm
    have hkeysB : ∀ x ∈ (lookupPool pmr pN).getD [], isForbidden x.1 = false ∧
        List.any x.1.data (fun c => c = '=') = false := by
      rw [hlookpm]
      cases hany : List.any conf2.pools (fun p => p.name = pN) with
      | false =>
        rw [if_neg (by simp)]
        intro x hx
        exact absurd hx (List.not_mem_nil x)
      | true =>
        rw [if_pos rfl]
        intro x hx
        refine applyAllEnvs_keys
          (fun n => isForbidden n = false ∧ List.any n.data (fun c => c = '=') = false)
          (poolEntriesOf conf2.pools pN) []
          ?_ (fun y hy => absurd hy (List.not_mem_nil y)) x hx
        intro e he
        rcases mem_poolEntriesOf he with ⟨p, hp, hep⟩
        exact hcfacts.2 p hp e hep
    have e1 : entryName ("DOCKER_ENDPOINT=" ++
        (if sC ≠ "" then "unix:///var/run/docker.sock" else dE)) = "DOCKER_ENDPOINT" := by
      rw [entryName_concat _ _ (by decide)]
      decide
    have e2 : entryName ("TSURU_ENDPOINT=" ++ normalizeHost hC) = "TSURU_ENDPOINT" := by
      rw [entryName_concat _ _ (by decide)]
      decide
    have e3 : entryName ("TSURU_TOKEN=" ++ tok) = "TSURU_TOKEN" := by
      rw [entryName_concat _ _ (by decide)]
      decide
    have e4 : entryName ("SYSLOG_LISTEN_ADDRESS=udp://0.0.0.0:" ++
        Nat.repr (SysLogPort syC)) = "SYSLOG_LISTEN_ADDRESS" := by
      rw [entryName_concat _ _ (by decide)]
      decide
    refine ⟨?_, ?_, ?_⟩
    · intro k hk
      have hforb := reservedKeys_forbidden k hk
      have hAzero : countKey (List.map (fun p => p.1 ++ "=" ++ p.2) m1) k = 0 := by
        apply countKey_eq_zero
        intro ss hss
        rcases List.mem_map.mp hss with ⟨x, hx, rfl⟩
        rw [entryName_merged x.1 x.2 (hkeysA x hx).2]
        intro hxk
        have hck := (hkeysA x hx).1
        rw [hxk, hforb] at hck
        exact Bool.noConfusion hck
      have hBzero : countKey (List.map (fun p => p.1 ++ "=" ++ p.2)
          ((lookupPool pmr pN).getD [])) k = 0 := by
        apply countKey_eq_zero
        intro ss hss
        rcases List.mem_map.mp hss with ⟨x, hx, rfl⟩
        rw [entryName_merged x.1 x.2 (hkeysB x hx).2]
        intro hxk
        have hck := (hkeysB x hx).1
        rw [hxk, hforb] at hck
        exact Bool.noConfusion hck
      rw [countKey_append, countKey_append, hAzero, hBzero,
        countKey_cons, countKey_cons, countKey_cons, countKey_cons,
        e1, e2, e3, e4]
      simp only [reservedKeys, List.mem_cons, List.not_mem_nil, or_false] at hk
      rcases hk with rfl | rfl | rfl | rfl <;> decide
    · rfl
    · intro ss hs
      have hs2 : ss ∈ List.map (fun p => p.1 ++ "=" ++ p.2) m1 ++
          List.map (fun p => p.1 ++ "=" ++ p.2) ((lookupPool pmr pN).getD []) := hs
      intro hmem
      have hforb := reservedKeys_forbidden _ hmem
      rcases List.mem_append.mp hs2 with h | h
      · rcases List.mem_map.mp h with ⟨x, hx, rfl⟩
        rw [entryName_merged x.1 x.2 (hkeysA x hx).2] at hforb
        have hck := (hkeysA x hx).1
        rw [hforb] at hck
        exact Bool.noConfusion hck
      · rcases List.mem_map.mp h with ⟨x, hx, rfl⟩
        rw [entryName_merged x.1 x.2 (hkeysB x hx).2] at hforb
        have hck := (hkeysB x hx).1
        rw [hforb] at hck
        exact Bool.noConfusion hck
  · intro conf dE pN hC sC syC tw hbad
    cases hG : getToken conf tw with
    | mk res rest =>
    cases rest with
    | mk conf2 rest2 =>
    cases rest2 with
    | mk st2 tr =>
    rw [hG] at hbad
    dsimp only at hbad
    cases res with
    | error e =>
      exact ⟨e, by simp [EnvListForEndpoint, hG]⟩
    | ok tok =>
      cases hU : UpdateEnvMaps conf2 [] [] with
      | mk err rest3 =>
      cases rest3 with
      | mk em pm =>
      cases err with
      | some e =>
        exact ⟨e, by simp [EnvListForEndpoint, hG, hU]⟩
      | none =>
        exfalso
        cases hel : applyEnvList conf2.envs [] with
        | mk err1 m1 =>
        cases err1 with
        | some e1 =>
          have hUU := hU
          simp only [UpdateEnvMaps, hel] at hUU
          exact Option.noConfusion (congrArg Prod.fst hUU)
        | none =>
        cases hap : applyPools conf2.pools [] with
        | mk err2 pmr =>
        cases err2 with
        | some e2 =>
          have hUU := hU
          simp only [UpdateEnvMaps, hel, hap] at hUU
          exact Option.noConfusion (congrArg Prod.fst hUU)
        | none =>
          have hclean1 := applyEnvList_none_clean conf2.envs [] (by rw [hel])
          have hclean2 := applyPools_none_clean conf2.pools [] (by rw [hap])
          have hgood : confForbiddenFree conf2 = true := by
            simp only [confForbiddenFree, Bool.and_eq_true, List.all_eq_true,
              decide_eq_true_eq]
            constructor
            · intro e he
              simp [hclean1 e he]
            · intro p hp e he
              simp [hclean2 p hp e he]
          rw [hgood] at hbad
          exact Bool.noConfusion hbad

/-- C1 witness: the main clause applied to a concrete forbidden-free and
`=`-free configuration: the returned list carries exactly one `TSURU_TOKEN`
entry. -/
theorem C1_reserved_env_entries_witness :
    countKey ["DOCKER_ENDPOINT=ep", "TSURU_ENDPOINT=http:/", "TSURU_TOKEN=tok",
      "SYSLOG_LISTEN_ADDRESS=udp://0.0.0.0:1514", "A=1"] "TSURU_TOKEN" = 1 := by
  have h := (C1_reserved_env_entries.1 ⟨"bs", "", "tok", [⟨"A", "1"⟩], []⟩
    "ep" "p" "" "" 0 ⟨none, Except.ok "f", none, none, none⟩
    ["DOCKER_ENDPOINT=ep", "TSURU_ENDPOINT=http:/", "TSURU_TOKEN=tok",
      "SYSLOG_LISTEN_ADDRESS=udp://0.0.0.0:1514", "A=1"] "tok"
    (by decide) (by decide) (fun r hr => Option.noConfusion hr) rfl rfl).1
  exact h "TSURU_TOKEN" (by decide)

end Bs
